import Mathlib

/-!
Verification development for the Coin Dash SE decision pipeline.

The repository ships the log-viewing frontend (frontend/src/pages/LogsPage.jsx)
together with documentation of the backend decision engine.  The frontend
helpers are embedded here directly from the JSX source; the backend
components (orchestrator, committee, safety validator, failover monitor,
gate) are modelled from the specification, as noted on each definition.

Strings of the JSX source are embedded as lists of characters, so that
the JavaScript string operations (split / trim / filter / slice,
toLowerCase, startsWith, property lookup) become structural list
functions.
-/

namespace CoinDash

/-! Frontend embedding: LogsPage.jsx, `DecisionDrawer.splitReason`.

Source (lines 203-210):
  const splitReason = (text) => \x7b
    if (!text) return [];
    return text
      .split(/[\n；。;•-]/)
      .map((s) => s.trim())
      .filter(Boolean)
      .slice(0, 5);
  \x7d;
-/
/-- Separator characters of the split regular expression in `splitReason`:
newline, fullwidth semicolon, ideographic full stop, ASCII semicolon,
bullet, and hyphen. -/
def isReasonSep (c : Char) : Bool :=
  c == '\n' || c == '；' || c == '。' || c == ';' || c == '•' || c == '-'

/-- JavaScript `String.prototype.trim` on a character list: whitespace is
removed from both ends (and nowhere else). -/
def jsTrim (s : List Char) : List Char :=
  ((s.dropWhile Char.isWhitespace).reverse.dropWhile Char.isWhitespace).reverse

/-- The helper `splitReason` of `DecisionDrawer`: `none` stands for the
JavaScript `null`/`undefined` argument, `some []` for the empty string
(both falsy, so the guard `if (!text) return []` fires).  Otherwise the
text is split on the separator class, every piece is trimmed, empty
pieces are dropped (`filter(Boolean)`), and the first five pieces are
kept (`slice(0, 5)`). -/
def splitReason : Option (List Char) → List (List Char)
  | none => []
  | some text =>
    if text.isEmpty then []
    else (((text.splitOnP isReasonSep).map jsTrim).filter (fun s => !s.isEmpty)).take 5

/-! Frontend embedding: LogsPage.jsx, `StatsCards` (lines 176-199).

Source:
  const getDecision = (d) =>
    (d.decision_code || d.result?.decision || d.decision_type || "").toString().toLowerCase();
  const finalOpen = (decisions.items || []).filter(
    (d) => d.is_final && getDecision(d).startsWith("open")).length;
  const holdCount = (decisions.items || []).filter(
    (d) => getDecision(d) === "hold").length;
-/
/-- One row of the decision list consumed by `StatsCards`.  The three
string fields mirror `d.decision_code`, `d.result?.decision` and
`d.decision_type`; an absent / null / empty-string field is embedded as
the empty list, which is exactly the class of values the JavaScript
`||` chain skips. -/
structure DecisionItem where
  decision_code : List Char
  result_decision : List Char
  decision_type : List Char
  is_final : Bool

/-- JavaScript `a || b` restricted to strings: the left operand wins
unless it is falsy (the empty string). -/
def jsOrStr (a b : List Char) : List Char :=
  if a.isEmpty then b else a

/-- JavaScript `toLowerCase` on a character list. -/
def toLowerStr (s : List Char) : List Char := s.map Char.toLower

/-- The `getDecision` helper of `StatsCards`. -/
def getDecision (d : DecisionItem) : List Char :=
  toLowerStr (jsOrStr d.decision_code (jsOrStr d.result_decision d.decision_type))

/-- The predicate of the `finalOpen` filter: truthy `is_final` and a
decision code starting with "open". -/
def isFinalOpenRow (d : DecisionItem) : Bool :=
  d.is_final && ['o', 'p', 'e', 'n'].isPrefixOf (getDecision d)

/-- The predicate of the `holdCount` filter: the decision code equals
"hold". -/
def isHoldRow (d : DecisionItem) : Bool :=
  getDecision d == ['h', 'o', 'l', 'd']

/-- The displayed final-open count. -/
def finalOpenCount (items : List DecisionItem) : Nat :=
  (items.filter isFinalOpenRow).length

/-- The displayed hold count. -/
def holdRowCount (items : List DecisionItem) : Nat :=
  (items.filter isHoldRow).length

/-! Frontend embedding: LogsPage.jsx, `decisionLabel` (lines 311-323).

Source:
  const decisionLabel = (code) => \x7b
    const map = \x7b open_long: "开多", open_short: "开空", close: "平仓",
                  hold: "观望", review: "复评", decision: "决策" \x7d;
    if (!code) return "-";
    const key = code.toString().toLowerCase();
    return map[key] || key;
  \x7d;
-/
/-- Association-list lookup mirroring the object-literal member access
`map[key]` on the six own properties of the literal. -/
def lookupStr (k : List Char) : List (List Char × List Char) → Option (List Char)
  | [] => none
  | (k', v) :: rest => if k = k' then some v else lookupStr k rest

/-- The six fixed entries of the `decisionLabel` map, with their Chinese
labels. -/
def decisionLabelMap : List (List Char × List Char) :=
  [("open_long".toList, "开多".toList),
   ("open_short".toList, "开空".toList),
   ("close".toList, "平仓".toList),
   ("hold".toList, "观望".toList),
   ("review".toList, "复评".toList),
   ("decision".toList, "决策".toList)]

/-- A value `map[key] || key` can produce in the source: a string, or
one of the two truthy values the bracket access inherits from
`Object.prototype` when the key misses the literal's own properties —
the `constructor` function (key "constructor") and the result of the
`__proto__` accessor, `Object.prototype` itself (key "__proto__"). -/
inductive JsValue
  | str (s : List Char)
  | objectCtor
  | objectProto
deriving DecidableEq, Repr

/-- The `decisionLabel` helper of `DecisionsTab`: `none` embeds the
falsy non-string arguments (`null`/`undefined`), `some []` the empty
string; both hit the `if (!code) return "-"` guard.  Otherwise the code
is lowercased and looked up by `map[key]`, which checks the literal's
six own properties first and then the prototype chain: of the inherited
`Object.prototype` names only "constructor" and "__proto__" are all
lowercase, so they are the only ones a lowercased key can hit, and both
yield truthy non-string values.  Every other key falls through
`map[key] || key` to the lowercased key itself (no own label is the
empty string, so `||` never rejects an own-property hit). -/
def decisionLabel (code : Option (List Char)) : JsValue :=
  match code with
  | none => .str ['-']
  | some c =>
    if c.isEmpty then .str ['-']
    else
      match lookupStr (toLowerStr c) decisionLabelMap with
      | some label => .str label
      | none =>
        if toLowerStr c = "constructor".toList then .objectCtor
        else if toLowerStr c = "__proto__".toList then .objectProto
        else .str (toLowerStr c)

/-! Backend: decision direction and the Safety Validator (spec §4.5).
The Python sources (coin_dash/ai/safe_fallback.py, coin_dash/verify/validator.py)
are not part of the provided source tree, so the validator is modelled
from the specification. -/
/-- Modelled from the spec: the trade direction of a ModelOpinion or
final decision, `direction ∈ \x7blong, short, hold\x7d` (spec §3). -/
inductive Direction
  | long
  | short
  | hold
deriving DecidableEq, Repr

/-- Modelled from the spec: the price fields of a final decision as seen
by the Safety Validator (spec §3, §4.5).  `statedRR` is the risk/reward
ratio the model itself reported; the validator must never trust it. -/
structure TradeDecision where
  direction : Direction
  entry : ℚ
  stop : ℚ
  target : ℚ
  statedRR : ℚ
deriving DecidableEq

/-- Modelled from the spec: the risk/reward ratio recomputed strictly
from entry/stop/target (spec §4.5): reward distance over risk distance
for the decided direction. -/
def computedRR (d : TradeDecision) : ℚ :=
  match d.direction with
  | .long => (d.target - d.entry) / (d.entry - d.stop)
  | .short => (d.entry - d.target) / (d.stop - d.entry)
  | .hold => 0

/-- Modelled from the spec: stop and target lie on the correct side of
entry for the decided direction (spec §4.5); a `hold` decision has no
price sides to validate. -/
def sidesOk (d : TradeDecision) : Bool :=
  match d.direction with
  | .long => decide (d.stop < d.entry) && decide (d.entry < d.target)
  | .short => decide (d.target < d.entry) && decide (d.entry < d.stop)
  | .hold => false

/-- Modelled from the spec: a malformed decision is coerced to `hold`
(spec §4.5), keeping its other fields for the record. -/
def coerceHold (d : TradeDecision) : TradeDecision :=
  { d with direction := .hold }

/-- Modelled from the spec: the Safety Validator (spec §4.5).  A
decision passes unchanged only when its price sides are correct and the
recomputed risk/reward ratio meets the configured minimum; everything
else is coerced to `hold`. -/
def validate (minRR : ℚ) (d : TradeDecision) : TradeDecision :=
  if sidesOk d && decide (minRR ≤ computedRR d) then d else coerceHold d

/-! Backend: the data-source failover state machine (spec §4.1).  The
Python data pipeline (coin_dash/data/) is not part of the provided
source tree, so the machine is modelled from the specification. -/
/-- Modelled from the spec: the two failover states of the market-data
layer (spec §4.1). -/
inductive SourceState
  | PRIMARY
  | BACKUP
deriving DecidableEq, Repr

/-- Modelled from the spec: the failover monitor state, tracking the
current source, the consecutive primary fetch failures, and the
consecutive successful primary health probes (spec §4.1). -/
structure FailoverState where
  source : SourceState
  failStreak : Nat
  probeStreak : Nat
deriving DecidableEq, Repr

/-- Modelled from the spec: observable events driving the failover
machine (spec §4.1). -/
inductive FailoverEvent
  | fetchFailure
  | fetchSuccess
  | probeSuccess
  | probeFailure
deriving DecidableEq, Repr

/-- Modelled from the spec: one step of the failover machine with
thresholds `k` (consecutive fetch failures, default 3) and `m`
(consecutive successful probes, default 5): PRIMARY goes to BACKUP when
the failure streak reaches `k`; BACKUP returns to PRIMARY when the
probe streak reaches `m`; a success resets the corresponding streak
(spec §4.1). -/
def failoverStep (k m : Nat) (s : FailoverState) : FailoverEvent → FailoverState
  | .fetchFailure =>
    match s.source with
    | .PRIMARY =>
      if k ≤ s.failStreak + 1 then ⟨.BACKUP, 0, 0⟩ else ⟨.PRIMARY, s.failStreak + 1, 0⟩
    | .BACKUP => s
  | .fetchSuccess =>
    match s.source with
    | .PRIMARY => ⟨.PRIMARY, 0, 0⟩
    | .BACKUP => s
  | .probeSuccess =>
    match s.source with
    | .PRIMARY => s
    | .BACKUP =>
      if m ≤ s.probeStreak + 1 then ⟨.PRIMARY, 0, 0⟩ else ⟨.BACKUP, 0, s.probeStreak + 1⟩
  | .probeFailure =>
    match s.source with
    | .PRIMARY => s
    | .BACKUP => ⟨.BACKUP, 0, 0⟩

/-- Modelled from the spec: running the failover machine over a list of
events. -/
def failoverRun (k m : Nat) (s : FailoverState) (evs : List FailoverEvent) : FailoverState :=
  evs.foldl (failoverStep k m) s

/-- Default failure threshold K of the failover machine (spec §4.1). -/
def defaultK : Nat := 3

/-- Default probe threshold M of the failover machine (spec §4.1). -/
def defaultM : Nat := 5

/-! Backend: Stage A of the decision gate (spec §4.3).  The pre-filter
adapter (coin_dash/ai/filter_adapter.py) is not part of the provided
source tree, so its retry/fallback discipline is modelled from the
specification: a fixed request timeout, at most 2 retries, then the
configured fallback (`proceed` or `hold`). -/
/-- Modelled from the spec: the gate outcome of Stage A — either the
cycle proceeds to the next stage or it holds (spec §4.3). -/
inductive GateOutcome
  | proceed
  | hold
deriving DecidableEq, Repr

/-- Maximum number of retries of a failed Stage A invocation
(spec §4.3: "at most 2 retries, after which fallback applies"). -/
def stageAMaxRetries : Nat := 2

/-- Modelled from the spec: the Stage A attempt loop.  `attempts i`
is the outcome of the i-th invocation (`none` = timeout or parse
error); the loop consumes one attempt per unit of fuel and falls back
when the fuel is exhausted.  It returns the gate outcome together with
the number of attempts consumed. -/
def stageALoop (attempts : Nat → Option GateOutcome) (fallback : GateOutcome) :
    Nat → Nat → GateOutcome × Nat
  | i, 0 => (fallback, i)
  | i, fuel + 1 =>
    match attempts i with
    | some g => (g, i + 1)
    | none => stageALoop attempts fallback (i + 1) fuel

/-- Modelled from the spec: a full Stage A invocation — one initial
attempt plus at most `stageAMaxRetries` retries, then the configured
fallback (spec §4.3). -/
def runStageA (attempts : Nat → Option GateOutcome) (fallback : GateOutcome) :
    GateOutcome × Nat :=
  stageALoop attempts fallback 0 (stageAMaxRetries + 1)

/-! Backend: the weighted committee (spec §4.4).  The committee code
(coin_dash/ai/, multi-model committee) is not part of the provided
source tree, so the aggregation algorithm is modelled from the
specification. -/
/-- Modelled from the spec: a ModelOpinion as consumed by the committee
aggregation (spec §3): direction, confidence, and the self-reported
quality and risk scores. -/
structure Opinion where
  direction : Direction
  confidence : ℚ
  quality_score : ℚ
  risk_score : ℚ
deriving DecidableEq

/-- Modelled from the spec: a committee member that did respond, with
its fixed nominal weight (spec §4.4 step 1; e.g. primary 0.5,
secondary-A 0.3, secondary-B 0.2). -/
structure Respondent where
  weight : ℚ
  opinion : Opinion
deriving DecidableEq

/-- Sum of the nominal weights of all respondents. -/
def totalWeight (rs : List Respondent) : ℚ :=
  (rs.map (·.weight)).sum

/-- Modelled from the spec: the weighted mass of a direction bucket
after renormalising the nominal weights over the respondents
(spec §4.4 steps 1-2). -/
def dirMass (rs : List Respondent) (d : Direction) : ℚ :=
  ((rs.filter (fun r => r.opinion.direction == d)).map (·.weight)).sum / totalWeight rs

/-- Modelled from the spec: the direction bucket with the highest
weighted mass wins (spec §4.4 step 2); ties break deterministically
towards long, then short, then hold. -/
def winnerDir (rs : List Respondent) : Direction :=
  if dirMass rs .long < dirMass rs .short then
    (if dirMass rs .short < dirMass rs .hold then .hold else .short)
  else
    (if dirMass rs .long < dirMass rs .hold then .hold else .long)

/-- Modelled from the spec: conflict level of the committee
(spec §4.4 step 3). -/
inductive ConflictLevel
  | none
  | low
  | high
deriving DecidableEq, Repr

/-- Number of respondents whose direction dissents from the winner. -/
def dissentCount (rs : List Respondent) : Nat :=
  (rs.filter (fun r => !(r.opinion.direction == winnerDir rs))).length

/-- Modelled from the spec: conflict level from the dispersion of
directions across respondents (spec §4.4 step 3): unanimous gives
`none`, a majority with one dissent gives `low`, anything more spread
(e.g. a near-even split) gives `high`. -/
def conflictLevel (rs : List Respondent) : ConflictLevel :=
  match dissentCount rs with
  | 0 => .none
  | 1 => .low
  | _ => .high

/-- Modelled from the spec: the winning opinion — the first respondent
of the winning bucket (committee members are configured in descending
nominal weight; spec §4.4 step 4). -/
def winningOpinion (rs : List Respondent) : Option Opinion :=
  (rs.find? (fun r => r.opinion.direction == winnerDir rs)).map (·.opinion)

/-- Modelled from the spec: the downgrade condition of step 4: high
conflict, or a winning opinion whose quality score is below its own
risk score. -/
def downgradeNeeded (rs : List Respondent) : Bool :=
  (conflictLevel rs == .high) ||
    (match winningOpinion rs with
     | some o => decide (o.quality_score < o.risk_score)
     | Option.none => false)

/-- Modelled from the spec: the final direction of the committee
(spec §4.4 step 4): the raw winner, downgraded to `hold` when the
downgrade condition fires. -/
def finalDirection (rs : List Respondent) : Direction :=
  if downgradeNeeded rs then .hold else winnerDir rs

/-- The committee of the spec's first aggregation test: opinions
long@0.9, long@0.8, hold@0.5 with nominal weights 0.5 / 0.3 / 0.2
(quality above risk throughout). -/
def exampleRespondents : List Respondent :=
  [⟨1/2, ⟨.long, 9/10, 1, 0⟩⟩, ⟨3/10, ⟨.long, 8/10, 1, 0⟩⟩, ⟨1/5, ⟨.hold, 1/2, 1, 0⟩⟩]

/-- The committee of the spec's second aggregation test: an evenly
weighted long / short / hold split. -/
def evenSplitRespondents : List Respondent :=
  [⟨1/3, ⟨.long, 1/2, 1, 0⟩⟩, ⟨1/3, ⟨.short, 1/2, 1, 0⟩⟩, ⟨1/3, ⟨.hold, 1/2, 1, 0⟩⟩]

/-! Backend: the position state machine and its single-open-position
invariant (spec §4.6).  The orchestrator
(coin_dash/runtime/orchestrator.py) is not part of the provided source
tree, so its transitions on the position log are modelled from the
specification. -/
/-- Modelled from the spec: the status of a PositionState,
`status ∈ \x7bflat, open, cooling_down\x7d` (spec §3); `opened` stands
for the source's `open`. -/
inductive PosStatus
  | flat
  | opened
  | coolingDown
deriving DecidableEq, Repr

/-- Modelled from the spec: one persisted PositionState record
(spec §3): instrument (identified by a natural number), status, and
direction. -/
structure Position where
  instrument : Nat
  status : PosStatus
  direction : Direction
deriving DecidableEq, Repr

/-- Modelled from the spec: the orchestrator events that mutate the
position log (spec §4.6): the final open decision (carrying whether the
Safety Validator passed), an exit/close, and an elapsed cooldown
window. -/
inductive OrchEvent
  | openDecision (instrument : Nat) (direction : Direction) (validatorPassed : Bool)
  | closePosition (instrument : Nat)
  | cooldownElapsed (instrument : Nat)
deriving DecidableEq, Repr

/-- A record that is an open position of instrument `i`. -/
def isOpenFor (i : Nat) (p : Position) : Bool :=
  p.instrument == i && p.status == .opened

/-- Whether some open position for instrument `i` exists in the log. -/
def hasOpen (ps : List Position) (i : Nat) : Bool :=
  ps.any (isOpenFor i)

/-- Number of open positions of instrument `i` in the log. -/
def openCount (ps : List Position) (i : Nat) : Nat :=
  ps.countP (isOpenFor i)

/-- Modelled from the spec: one orchestrator transition on the position
log (spec §4.6): flat→open only when the Safety Validator passed and no
position for the instrument is already open; an exit marks the open
position cooling_down; an elapsed window marks it flat. -/
def orchStep (ps : List Position) : OrchEvent → List Position
  | .openDecision i d ok =>
    if ok && !hasOpen ps i then ⟨i, .opened, d⟩ :: ps else ps
  | .closePosition i =>
    ps.map (fun p => if isOpenFor i p then { p with status := .coolingDown } else p)
  | .cooldownElapsed i =>
    ps.map (fun p =>
      if p.instrument == i && p.status == .coolingDown then { p with status := .flat } else p)

/-- Modelled from the spec: an execution of the orchestrator from the
empty position log. -/
def orchRun (evs : List OrchEvent) : List Position :=
  evs.foldl orchStep []

/-! Backend: persistence of one evaluation cycle (spec §4.4 step 5).
The decision-persistence code (coin_dash/db/, ai_decisions writer) is
not part of the provided source tree, so the write of one cycle is
modelled from the specification: every individual ModelOpinion is
written plus exactly one CommitteeDecision record flagged
`is_final=true`. -/
/-- Modelled from the spec: a ModelOpinion as persisted (spec §3): the
source model's identity, direction and confidence. -/
structure ModelOpinion where
  model_name : String
  direction : Direction
  confidence : ℚ
deriving DecidableEq

/-- Modelled from the spec: one row of the `ai_decisions` store
(README: `model_name`/`committee_id`/`weight`/`is_final`): the cycle it
belongs to, the writing model, the direction and the final flag. -/
structure DecisionRecord where
  cycle_id : Nat
  model_name : String
  direction : Direction
  is_final : Bool
deriving DecidableEq

/-- Modelled from the spec: persisting one evaluation cycle
(spec §4.4 step 5): one non-final record per individual ModelOpinion
followed by the single committee record flagged `is_final=true`. -/
def persistCycle (cid : Nat) (ops : List ModelOpinion) (final : Direction) :
    List DecisionRecord :=
  ops.map (fun o => ⟨cid, o.model_name, o.direction, false⟩) ++
    [⟨cid, "committee", final, true⟩]

/-- Number of records flagged final. -/
def finalRecordCount (records : List DecisionRecord) : Nat :=
  records.countP (·.is_final)

/-! Backend: the cooldown window after a close (spec §4.6).  The signal
manager (coin_dash/signals/manager.py) is not part of the provided
source tree, so the cooldown rule is modelled from the specification:
after a close, same-direction opens on the instrument are suppressed
for a fixed window (default 30 minutes); reviews are never
suppressed. -/
/-- Default cooldown window in minutes (spec §4.6). -/
def cooldownMinutes : Nat := 30

/-- Modelled from the spec: the record of a closed position that drives
the cooldown: instrument, direction and close time (minutes since an
arbitrary epoch). -/
structure CooldownEntry where
  instrument : Nat
  direction : Direction
  closedAt : Nat
deriving DecidableEq, Repr

/-- Modelled from the spec: the two signal kinds the cooldown
distinguishes (spec §4.6): new opens and reviews. -/
inductive SignalKind
  | openSignal
  | reviewSignal
deriving DecidableEq, Repr

/-- Modelled from the spec: whether a signal at time `t` is accepted
given the recorded closes (spec §4.6): an open of direction `d` on
instrument `i` is rejected while `t` lies inside the cooldown window of
a same-instrument same-direction close; reviews are always accepted. -/
def signalAccepted (closes : List CooldownEntry) (kind : SignalKind)
    (i : Nat) (d : Direction) (t : Nat) : Bool :=
  match kind with
  | .reviewSignal => true
  | .openSignal =>
    !(closes.any (fun c => c.instrument == i && c.direction == d &&
        decide (t < c.closedAt + cooldownMinutes)))

/-! Theorems.  Each claim Ci of the review is settled by the single
theorem named Ci_..., stated over the definitions above; the remaining
theorems are helper lemmas. -/

/-- Heads surviving `dropWhile p` falsify `p`. -/
theorem head?_dropWhile_false {p : Char → Bool} :
    ∀ {l : List Char} {c : Char}, (l.dropWhile p).head? = some c → p c = false := by
  intro l
  induction l with
  | nil => intro c h; simp [List.dropWhile] at h
  | cons x xs ih =>
    intro c h
    by_cases hx : p x
    · rw [List.dropWhile_cons, if_pos hx] at h
      exact ih h
    · rw [List.dropWhile_cons, if_neg hx] at h
      simp only [List.head?_cons, Option.some.injEq] at h
      rw [← h]
      exact Bool.eq_false_iff.mpr hx

/-- A list whose head (if any) falsifies `p` is untouched by `dropWhile p`. -/
theorem dropWhile_eq_self_of_head {p : Char → Bool} {l : List Char}
    (h : ∀ c, l.head? = some c → p c = false) : l.dropWhile p = l := by
  cases l with
  | nil => rfl
  | cons x xs =>
    have hx : p x = false := h x rfl
    rw [List.dropWhile_cons, if_neg (by simp [hx])]

/-- Dropping a prefix never changes the last element (unless everything
is dropped). -/
theorem getLast?_dropWhile (p : Char → Bool) :
    ∀ l : List Char, l.dropWhile p = [] ∨ (l.dropWhile p).getLast? = l.getLast? := by
  intro l
  induction l with
  | nil => exact Or.inl rfl
  | cons x xs ih =>
    by_cases hx : p x
    · rw [List.dropWhile_cons, if_pos hx]
      cases xs with
      | nil => exact Or.inl rfl
      | cons y ys =>
        rcases ih with h | h
        · exact Or.inl h
        · exact Or.inr (by rw [h, List.getLast?_cons_cons])
    · rw [List.dropWhile_cons, if_neg hx]
      exact Or.inr rfl

/-- The first character of a trimmed string is not whitespace. -/
theorem jsTrim_head {s : List Char} {c : Char}
    (h : (jsTrim s).head? = some c) : c.isWhitespace = false := by
  unfold jsTrim at h
  rw [List.head?_reverse] at h
  rcases getLast?_dropWhile Char.isWhitespace (s.dropWhile Char.isWhitespace).reverse with
    hnil | hlast
  · rw [hnil] at h; simp at h
  · rw [hlast, List.getLast?_reverse] at h
    exact head?_dropWhile_false h

/-- The last character of a trimmed string is not whitespace. -/
theorem jsTrim_getLast {s : List Char} {c : Char}
    (h : (jsTrim s).getLast? = some c) : c.isWhitespace = false := by
  unfold jsTrim at h
  rw [List.getLast?_reverse] at h
  exact head?_dropWhile_false h

/-- Trimming is idempotent. -/
theorem jsTrim_idem (s : List Char) : jsTrim (jsTrim s) = jsTrim s := by
  have h1 : (jsTrim s).dropWhile Char.isWhitespace = jsTrim s :=
    dropWhile_eq_self_of_head (fun _ hc => jsTrim_head hc)
  have h2 : (jsTrim s).reverse.dropWhile Char.isWhitespace = (jsTrim s).reverse := by
    refine dropWhile_eq_self_of_head (fun c hc => ?_)
    rw [List.head?_reverse] at hc
    exact jsTrim_getLast hc
  show ((((jsTrim s).dropWhile _).reverse.dropWhile _)).reverse = jsTrim s
  rw [h1, h2, List.reverse_reverse]

/-- Claim C8: `splitReason` returns at most five elements, each a
non-empty string with no leading or trailing whitespace (i.e. a fixed
point of trimming); null, undefined and empty input give the empty
list; the function is total by construction. -/
theorem C8_splitReason_bounded_trimmed (o : Option (List Char)) :
    (splitReason o).length ≤ 5 ∧
    (∀ e ∈ splitReason o, e ≠ [] ∧ jsTrim e = e) ∧
    splitReason none = [] ∧ splitReason (some []) = [] := by
  refine ⟨?_, ?_, rfl, rfl⟩
  · cases o with
    | none => simp [splitReason]
    | some text =>
      simp only [splitReason]
      by_cases ht : text.isEmpty
      · simp [ht]
      · rw [if_neg ht]
        exact List.length_take_le 5 _
  · intro e he
    cases o with
    | none => simp [splitReason] at he
    | some text =>
      simp only [splitReason] at he
      by_cases ht : text.isEmpty
      · simp [ht] at he
      · rw [if_neg ht] at he
        have hf := List.mem_of_mem_take he
        have hmem := (List.mem_filter.mp hf).1
        have hne : (!e.isEmpty) = true := (List.mem_filter.mp hf).2
        obtain ⟨x, _, hx⟩ := List.mem_map.mp hmem
        constructor
        · intro hcon
          rw [hcon] at hne
          simp at hne
        · rw [← hx]
          exact jsTrim_idem x

/-- Claim C8 witness: on the concrete input " a-b " the result contains
the element "a", which is non-empty and trimmed. -/
theorem C8_splitReason_witness : (['a'] ≠ ([] : List Char)) ∧ jsTrim ['a'] = ['a'] :=
  (C8_splitReason_bounded_trimmed (some [' ', 'a', '-', 'b', ' '])).2.1 ['a'] (by decide)

/-- Two pointwise-exclusive filters select disjoint sublists, so their
lengths add up to at most the length of the list. -/
theorem length_filter_add_length_filter_le {α : Type} (l : List α) (p q : α → Bool)
    (hpq : ∀ x, p x = true → q x = false) :
    (l.filter p).length + (l.filter q).length ≤ l.length := by
  induction l with
  | nil => simp
  | cons x xs ih =>
    by_cases hp : p x = true
    · have hq := hpq x hp
      simp only [List.filter_cons, hp, hq, if_true, Bool.false_eq_true, if_false,
        List.length_cons]
      omega
    · simp only [List.filter_cons, hp, if_false, List.length_cons]
      by_cases hq : q x = true <;> simp only [hq, if_true, Bool.false_eq_true, if_false,
        List.length_cons] <;> omega

/-- Claim C9: a row counted by `finalOpen` (truthy `is_final`, decision
code starting with "open") is never counted by `holdCount` (decision
code equal to "hold"), so the two displayed statistics count disjoint
subsets and their sum never exceeds the number of rows. -/
theorem C9_statsCards_disjoint_sum (items : List DecisionItem) :
    (∀ d, isFinalOpenRow d = true → isHoldRow d = false) ∧
    finalOpenCount items + holdRowCount items ≤ items.length := by
  have hdisj : ∀ d, isFinalOpenRow d = true → isHoldRow d = false := by
    intro d hd
    unfold isFinalOpenRow at hd
    have hpre : (['o', 'p', 'e', 'n'].isPrefixOf (getDecision d)) = true := by
      simp only [Bool.and_eq_true] at hd
      exact hd.2
    unfold isHoldRow
    by_contra hcon
    have heq : getDecision d = ['h', 'o', 'l', 'd'] := by
      have := Bool.not_eq_false (getDecision d == ['h', 'o', 'l', 'd'])
      exact eq_of_beq (by revert hcon; cases h : (getDecision d == ['h', 'o', 'l', 'd']) <;> simp [h])
    rw [heq] at hpre
    simp [List.isPrefixOf] at hpre
  exact ⟨hdisj, length_filter_add_length_filter_le items isFinalOpenRow isHoldRow hdisj⟩

/-- Claim C9 witness: the disjointness applied to a concrete open-long
row, and the bound evaluated on a concrete two-row list. -/
theorem C9_statsCards_witness :
    isHoldRow ⟨['o', 'p', 'e', 'n', '_', 'l', 'o', 'n', 'g'], [], [], true⟩ = false :=
  (C9_statsCards_disjoint_sum []).1
    ⟨['o', 'p', 'e', 'n', '_', 'l', 'o', 'n', 'g'], [], [], true⟩ (by decide)

/-- Lookup misses when the key differs from every stored key. -/
theorem lookupStr_eq_none {k : List Char} :
    ∀ {m : List (List Char × List Char)}, (∀ e ∈ m, k ≠ e.1) → lookupStr k m = none := by
  intro m
  induction m with
  | nil => intro _; rfl
  | cons e rest ih =>
    intro h
    unfold lookupStr
    rw [if_neg (h e (List.mem_cons_self e rest))]
    exact ih (fun e' he' => h e' (List.mem_cons_of_mem e he'))

/-- Claim C10 counterexample: at the concrete input "constructor"
(already lowercase, not a key of the literal) the source's bracket
access hits the inherited `Object.prototype.constructor` — a truthy
value — so `map[key] || key` returns the inherited constructor, not
the lowercased code itself, refuting the claim as stated. -/
theorem C10_decisionLabel_counterexample :
    decisionLabel (some "constructor".toList) = .objectCtor ∧
    decisionLabel (some "constructor".toList) ≠ JsValue.str "constructor".toList := by
  exact ⟨by decide, by decide⟩

/-- Claim C10 (amended): `decisionLabel` is total; it returns "-" on
the falsy inputs (null / undefined / empty string), the fixed Chinese
label when the lowercased code is one of the six own keys of the map,
the inherited `Object.prototype` value when the lowercased code is
"constructor" or "__proto__" (the only inherited names a lowercased
key can hit), and the lowercased code itself in every other case. -/
theorem C10_decisionLabel_total (code : Option (List Char)) :
    (code = none → decisionLabel code = .str ['-']) ∧
    (code = some [] → decisionLabel code = .str ['-']) ∧
    (∀ s, code = some s → ¬s.isEmpty = true →
      (∀ lab, lookupStr (toLowerStr s) decisionLabelMap = some lab →
        decisionLabel code = .str lab) ∧
      (toLowerStr s = "constructor".toList → decisionLabel code = .objectCtor) ∧
      (toLowerStr s = "__proto__".toList → decisionLabel code = .objectProto) ∧
      ((∀ e ∈ decisionLabelMap, toLowerStr s ≠ e.1) →
        toLowerStr s ≠ "constructor".toList → toLowerStr s ≠ "__proto__".toList →
        decisionLabel code = .str (toLowerStr s))) := by
  refine ⟨?_, ?_, ?_⟩
  · intro h; rw [h]; rfl
  · intro h; rw [h]; rfl
  · intro s hs hne
    refine ⟨?_, ?_, ?_, ?_⟩
    · intro lab hlab
      rw [hs]
      simp only [decisionLabel, if_neg hne, hlab]
    · intro heq
      rw [hs]
      simp only [decisionLabel, if_neg hne, heq]
      decide
    · intro heq
      rw [hs]
      simp only [decisionLabel, if_neg hne, heq]
      decide
    · intro hmiss hc hp
      rw [hs]
      simp only [decisionLabel, if_neg hne, lookupStr_eq_none hmiss, if_neg hc, if_neg hp]

/-- Claim C10 witness: the mapped case at the concrete input
"OPEN_LONG" (label 开多), the fallback case at "foo", and the
prototype-chain case at "__PROTO__". -/
theorem C10_decisionLabel_witness :
    decisionLabel (some "OPEN_LONG".toList) = .str "开多".toList ∧
    decisionLabel (some "foo".toList) = .str "foo".toList ∧
    decisionLabel (some "__PROTO__".toList) = .objectProto := by
  refine ⟨?_, ?_, ?_⟩
  · exact (((C10_decisionLabel_total (some "OPEN_LONG".toList)).2.2 "OPEN_LONG".toList rfl
      (by decide)).1 "开多".toList (by decide))
  · exact (((C10_decisionLabel_total (some "foo".toList)).2.2 "foo".toList rfl
      (by decide)).2.2.2 (by decide) (by decide) (by decide))
  · exact (((C10_decisionLabel_total (some "__PROTO__".toList)).2.2 "__PROTO__".toList rfl
      (by decide)).2.2.1 (by decide))

/-- Claim C3: the Safety Validator lets a decision through unchanged
only when stop/target are on the correct side of entry and the
risk/reward ratio recomputed from entry/stop/target meets the
configured minimum; a below-minimum recomputed RR or wrong price sides
coerce the decision to `hold`; and the model's own stated RR has no
influence on the verdict. -/
theorem C3_safety_validator (minRR : ℚ) (d : TradeDecision) :
    ((validate minRR d).direction = .hold ∨
      (validate minRR d = d ∧ sidesOk d = true ∧ minRR ≤ computedRR d)) ∧
    (computedRR d < minRR → (validate minRR d).direction = .hold) ∧
    (sidesOk d = false → (validate minRR d).direction = .hold) ∧
    (∀ x : ℚ, (validate minRR { d with statedRR := x }).direction =
      (validate minRR d).direction) := by
  refine ⟨?_, ?_, ?_, ?_⟩
  · by_cases h : (sidesOk d && decide (minRR ≤ computedRR d)) = true
    · refine Or.inr ⟨by rw [validate, if_pos h], ?_, ?_⟩
      · exact (Bool.and_eq_true _ _ ▸ h).1
      · exact of_decide_eq_true (Bool.and_eq_true _ _ ▸ h).2
    · rw [validate, if_neg h]
      exact Or.inl rfl
  · intro hlt
    have hdec : decide (minRR ≤ computedRR d) = false :=
      decide_eq_false (not_le.mpr hlt)
    rw [validate, if_neg (by simp [hdec])]
    rfl
  · intro hs
    rw [validate, if_neg (by simp [hs])]
    rfl
  · intro x
    by_cases h : (sidesOk d && decide (minRR ≤ computedRR d)) = true
    · have h' : (sidesOk { d with statedRR := x } &&
        decide (minRR ≤ computedRR { d with statedRR := x })) = true := h
      rw [validate, validate, if_pos h, if_pos h']
    · have h' : ¬(sidesOk { d with statedRR := x } &&
        decide (minRR ≤ computedRR { d with statedRR := x })) = true := h
      rw [validate, validate, if_neg h, if_neg h']
      rfl

/-- Claim C3 witness: a long decision with entry 100, stop 90, target
105 has recomputed RR 1/2 < 2 and is coerced to hold; one with stop
above entry has wrong sides and is coerced to hold. -/
theorem C3_safety_validator_witness :
    (validate 2 ⟨.long, 100, 90, 105, 9⟩).direction = .hold ∧
    (validate 2 ⟨.long, 100, 110, 130, 9⟩).direction = .hold :=
  ⟨(C3_safety_validator 2 ⟨.long, 100, 90, 105, 9⟩).2.1
      (of_decide_eq_true (by with_unfolding_all rfl)),
   (C3_safety_validator 2 ⟨.long, 100, 110, 130, 9⟩).2.2.1 (by decide)⟩

/-- A run of fetch failures shorter than the remaining budget keeps the
machine on PRIMARY and only advances the failure streak. -/
theorem failoverRun_failures_short (k m : Nat) :
    ∀ (j c : Nat), c + j < k →
      failoverRun k m ⟨.PRIMARY, c, 0⟩ (List.replicate j .fetchFailure) =
        ⟨.PRIMARY, c + j, 0⟩ := by
  intro j
  induction j with
  | zero => intro c _; rfl
  | succ j ih =>
    intro c hcj
    have hstep : failoverStep k m ⟨.PRIMARY, c, 0⟩ .fetchFailure = ⟨.PRIMARY, c + 1, 0⟩ := by
      simp only [failoverStep]
      rw [if_neg (by omega)]
    have : failoverRun k m ⟨.PRIMARY, c, 0⟩ (List.replicate (j + 1) .fetchFailure) =
        failoverRun k m ⟨.PRIMARY, c + 1, 0⟩ (List.replicate j .fetchFailure) := by
      rw [List.replicate_succ]
      simp only [failoverRun, List.foldl_cons, hstep]
    rw [this, ih (c + 1) (by omega)]
    congr 1
    omega

/-- A run of successful probes shorter than the remaining budget keeps
the machine on BACKUP and only advances the probe streak. -/
theorem failoverRun_probes_short (k m : Nat) :
    ∀ (j c : Nat), c + j < m →
      failoverRun k m ⟨.BACKUP, 0, c⟩ (List.replicate j .probeSuccess) =
        ⟨.BACKUP, 0, c + j⟩ := by
  intro j
  induction j with
  | zero => intro c _; rfl
  | succ j ih =>
    intro c hcj
    have hstep : failoverStep k m ⟨.BACKUP, 0, c⟩ .probeSuccess = ⟨.BACKUP, 0, c + 1⟩ := by
      simp only [failoverStep]
      rw [if_neg (by omega)]
    have : failoverRun k m ⟨.BACKUP, 0, c⟩ (List.replicate (j + 1) .probeSuccess) =
        failoverRun k m ⟨.BACKUP, 0, c + 1⟩ (List.replicate j .probeSuccess) := by
      rw [List.replicate_succ]
      simp only [failoverRun, List.foldl_cons, hstep]
    rw [this, ih (c + 1) (by omega)]
    congr 1
    omega

/-- Claim C6: from a fresh PRIMARY state, exactly `k` consecutive fetch
failures switch the machine to BACKUP and no shorter run does; from a
fresh BACKUP state, exactly `m` consecutive successful primary health
probes switch it back to PRIMARY and no shorter run does. -/
theorem C6_failover_transitions (k m : Nat) (hk : 0 < k) (hm : 0 < m) :
    failoverRun k m ⟨.PRIMARY, 0, 0⟩ (List.replicate k .fetchFailure) = ⟨.BACKUP, 0, 0⟩ ∧
    (∀ j < k, failoverRun k m ⟨.PRIMARY, 0, 0⟩ (List.replicate j .fetchFailure) =
      ⟨.PRIMARY, j, 0⟩) ∧
    failoverRun k m ⟨.BACKUP, 0, 0⟩ (List.replicate m .probeSuccess) = ⟨.PRIMARY, 0, 0⟩ ∧
    (∀ j < m, failoverRun k m ⟨.BACKUP, 0, 0⟩ (List.replicate j .probeSuccess) =
      ⟨.BACKUP, 0, j⟩) := by
  refine ⟨?_, ?_, ?_, ?_⟩
  · obtain ⟨k', rfl⟩ : ∃ k', k = k' + 1 := ⟨k - 1, by omega⟩
    rw [List.replicate_succ']
    rw [failoverRun, List.foldl_append]
    have hshort := failoverRun_failures_short (k' + 1) m k' 0 (by omega)
    rw [failoverRun] at hshort
    rw [hshort]
    simp only [List.foldl_cons, List.foldl_nil, failoverStep]
    rw [if_pos (by omega)]
  · intro j hj
    have := failoverRun_failures_short k m j 0 (by omega)
    simpa using this
  · obtain ⟨m', rfl⟩ : ∃ m', m = m' + 1 := ⟨m - 1, by omega⟩
    rw [List.replicate_succ']
    rw [failoverRun, List.foldl_append]
    have hshort := failoverRun_probes_short k (m' + 1) m' 0 (by omega)
    rw [failoverRun] at hshort
    rw [hshort]
    simp only [List.foldl_cons, List.foldl_nil, failoverStep]
    rw [if_pos (by omega)]
  · intro j hj
    have := failoverRun_probes_short k m j 0 (by omega)
    simpa using this

/-- Claim C6 witness: with the default thresholds K = 3 and M = 5,
three consecutive failures reach BACKUP, two do not, five probe
successes return to PRIMARY, and four do not. -/
theorem C6_failover_witness :
    failoverRun defaultK defaultM ⟨.PRIMARY, 0, 0⟩
      (List.replicate defaultK .fetchFailure) = ⟨.BACKUP, 0, 0⟩ ∧
    failoverRun defaultK defaultM ⟨.PRIMARY, 0, 0⟩
      (List.replicate 2 .fetchFailure) = ⟨.PRIMARY, 2, 0⟩ ∧
    failoverRun defaultK defaultM ⟨.BACKUP, 0, 0⟩
      (List.replicate defaultM .probeSuccess) = ⟨.PRIMARY, 0, 0⟩ ∧
    failoverRun defaultK defaultM ⟨.BACKUP, 0, 0⟩
      (List.replicate 4 .probeSuccess) = ⟨.BACKUP, 0, 4⟩ := by
  have h := C6_failover_transitions defaultK defaultM (by decide) (by decide)
  exact ⟨h.1, h.2.1 2 (by decide), h.2.2.1, h.2.2.2 4 (by decide)⟩

/-- The attempt counter of the Stage A loop grows by at most the fuel. -/
theorem stageALoop_attempts_le (attempts : Nat → Option GateOutcome)
    (fallback : GateOutcome) :
    ∀ (fuel i : Nat), (stageALoop attempts fallback i fuel).2 ≤ i + fuel := by
  intro fuel
  induction fuel with
  | zero => intro i; simp [stageALoop]
  | succ fuel ih =>
    intro i
    unfold stageALoop
    cases h : attempts i with
    | some g =>
      show i + 1 ≤ i + (fuel + 1)
      omega
    | none =>
      have := ih (i + 1)
      show (stageALoop attempts fallback (i + 1) fuel).2 ≤ i + (fuel + 1)
      omega

/-- When every attempt in the window fails, the Stage A loop returns
the fallback after consuming the whole budget. -/
theorem stageALoop_all_fail (attempts : Nat → Option GateOutcome)
    (fallback : GateOutcome) :
    ∀ (fuel i : Nat), (∀ j, i ≤ j → j < i + fuel → attempts j = none) →
      stageALoop attempts fallback i fuel = (fallback, i + fuel) := by
  intro fuel
  induction fuel with
  | zero => intro i _; rfl
  | succ fuel ih =>
    intro i h
    have hi : attempts i = none := h i (Nat.le_refl i) (by omega)
    unfold stageALoop
    rw [hi]
    have harith : i + 1 + fuel = i + (fuel + 1) := by omega
    have := ih (i + 1) (fun j hj hj' => h j (by omega) (by omega))
    rw [this, harith]

/-- The Stage A loop either falls back or returns the outcome of some
attempt inside the window. -/
theorem stageALoop_sound (attempts : Nat → Option GateOutcome)
    (fallback : GateOutcome) :
    ∀ (fuel i : Nat), (stageALoop attempts fallback i fuel).1 = fallback ∨
      ∃ j, i ≤ j ∧ j < i + fuel ∧
        attempts j = some (stageALoop attempts fallback i fuel).1 := by
  intro fuel
  induction fuel with
  | zero => intro i; exact Or.inl rfl
  | succ fuel ih =>
    intro i
    unfold stageALoop
    cases h : attempts i with
    | some g => exact Or.inr ⟨i, Nat.le_refl i, by omega, by simpa using h⟩
    | none =>
      rcases ih (i + 1) with h' | ⟨j, hj1, hj2, hj3⟩
      · exact Or.inl h'
      · exact Or.inr ⟨j, by omega, by omega, hj3⟩

/-- Claim C7: Stage A consumes at most `stageAMaxRetries + 1` attempts
(one invocation plus at most 2 retries); when every attempt in that
window fails by timeout or parse error the configured fallback is the
outcome; and in every case the cycle completes with a defined gate
outcome — the fallback or the outcome of a successful attempt. -/
theorem C7_stageA_retry_fallback (attempts : Nat → Option GateOutcome)
    (fallback : GateOutcome) :
    (runStageA attempts fallback).2 ≤ stageAMaxRetries + 1 ∧
    ((∀ j < stageAMaxRetries + 1, attempts j = none) →
      runStageA attempts fallback = (fallback, stageAMaxRetries + 1)) ∧
    ((runStageA attempts fallback).1 = fallback ∨
      ∃ j < stageAMaxRetries + 1, attempts j = some (runStageA attempts fallback).1) := by
  refine ⟨?_, ?_, ?_⟩
  · have := stageALoop_attempts_le attempts fallback (stageAMaxRetries + 1) 0
    simpa using this
  · intro h
    have := stageALoop_all_fail attempts fallback (stageAMaxRetries + 1) 0
      (fun j _ hj => h j (by omega))
    simpa [runStageA] using this
  · rcases stageALoop_sound attempts fallback (stageAMaxRetries + 1) 0 with h | ⟨j, _, hj2, hj3⟩
    · exact Or.inl h
    · exact Or.inr ⟨j, by omega, hj3⟩

/-- Claim C7 witness: when every attempt fails, the outcome is the
configured fallback `proceed` after exactly three attempts. -/
theorem C7_stageA_witness :
    runStageA (fun _ => none) .proceed = (.proceed, stageAMaxRetries + 1) :=
  (C7_stageA_retry_fallback (fun _ => none) .proceed).2.1 (fun _ _ => rfl)

/-- Claim C4: the winning direction maximises the renormalised weighted
mass over all buckets; the concrete committee [long@0.9, long@0.8,
hold@0.5] with weights [0.5, 0.3, 0.2] yields final direction long; an
evenly weighted long/short/hold split yields conflict level high and
final hold; and whenever the conflict level is high, or the winning
opinion's quality score is below its own risk score, the final decision
is downgraded to hold. -/
theorem C4_committee_aggregation :
    (∀ (rs : List Respondent) (d : Direction), dirMass rs d ≤ dirMass rs (winnerDir rs)) ∧
    (winnerDir exampleRespondents = .long ∧ finalDirection exampleRespondents = .long) ∧
    (conflictLevel evenSplitRespondents = .high ∧
      finalDirection evenSplitRespondents = .hold) ∧
    (∀ rs, conflictLevel rs = .high → finalDirection rs = .hold) ∧
    (∀ rs o, winningOpinion rs = some o → o.quality_score < o.risk_score →
      finalDirection rs = .hold) := by
  refine ⟨?_, ?_, ?_, ?_, ?_⟩
  · intro rs d
    unfold winnerDir
    by_cases h1 : dirMass rs .long < dirMass rs .short
    · rw [if_pos h1]
      by_cases h2 : dirMass rs .short < dirMass rs .hold
      · rw [if_pos h2]
        cases d with
        | long => exact le_of_lt (lt_trans h1 h2)
        | short => exact le_of_lt h2
        | hold => exact le_refl _
      · rw [if_neg h2]
        cases d with
        | long => exact le_of_lt h1
        | short => exact le_refl _
        | hold => exact le_of_not_lt h2
    · rw [if_neg h1]
      by_cases h2 : dirMass rs .long < dirMass rs .hold
      · rw [if_pos h2]
        cases d with
        | long => exact le_of_lt h2
        | short => exact le_of_lt (lt_of_le_of_lt (le_of_not_lt h1) h2)
        | hold => exact le_refl _
      · rw [if_neg h2]
        cases d with
        | long => exact le_refl _
        | short => exact le_of_not_lt h1
        | hold => exact le_of_not_lt h2
  · exact ⟨of_decide_eq_true (by with_unfolding_all rfl),
      of_decide_eq_true (by with_unfolding_all rfl)⟩
  · exact ⟨of_decide_eq_true (by with_unfolding_all rfl),
      of_decide_eq_true (by with_unfolding_all rfl)⟩
  · intro rs h
    have hd : downgradeNeeded rs = true := by
      unfold downgradeNeeded
      rw [h]
      rfl
    rw [finalDirection, if_pos hd]
  · intro rs o hwin hlt
    have hd : downgradeNeeded rs = true := by
      unfold downgradeNeeded
      rw [hwin]
      simp [hlt]
    rw [finalDirection, if_pos hd]

/-- Claim C4 witness: the downgrade clauses applied to concrete
committees — the even split (high conflict) and a single respondent
whose quality 0 is below its risk 1. -/
theorem C4_committee_witness :
    finalDirection evenSplitRespondents = .hold ∧
    finalDirection [⟨1, ⟨.long, 1, 0, 1⟩⟩] = .hold :=
  ⟨(C4_committee_aggregation).2.2.2.1 evenSplitRespondents
      (of_decide_eq_true (by with_unfolding_all rfl)),
   (C4_committee_aggregation).2.2.2.2 [⟨1, ⟨.long, 1, 0, 1⟩⟩] ⟨.long, 1, 0, 1⟩
      (of_decide_eq_true (by with_unfolding_all rfl)) (by decide)⟩

/-- An absent open position means a zero open count. -/
theorem openCount_eq_zero_of_hasOpen_false {ps : List Position} {i : Nat}
    (h : hasOpen ps i = false) : openCount ps i = 0 := by
  induction ps with
  | nil => rfl
  | cons p rest ih =>
    unfold hasOpen List.any at h
    have hp : isOpenFor i p = false := by
      revert h; cases hh : isOpenFor i p <;> simp [hh]
    have hrest : hasOpen rest i = false := by
      revert h; cases hh : rest.any (isOpenFor i) <;> simp [hh, hasOpen]
    unfold openCount at *
    rw [List.countP_cons, ih hrest, hp]
    rfl

/-- Mapping a function that never turns a non-open record into an open
one cannot increase the open count. -/
theorem openCount_map_le (ps : List Position) (f : Position → Position) (i : Nat)
    (hf : ∀ p, isOpenFor i (f p) = true → isOpenFor i p = true) :
    openCount (ps.map f) i ≤ openCount ps i := by
  unfold openCount
  rw [List.countP_map]
  exact List.countP_mono_left (fun a _ ha => hf a ha)

/-- Every orchestrator step preserves the at-most-one-open-position
invariant. -/
theorem orchStep_preserves_invariant (ps : List Position) (e : OrchEvent)
    (h : ∀ i, openCount ps i ≤ 1) : ∀ i, openCount (orchStep ps e) i ≤ 1 := by
  intro i
  cases e with
  | openDecision j d ok =>
    show openCount (if ok && !hasOpen ps j then ⟨j, .opened, d⟩ :: ps else ps) i ≤ 1
    by_cases hc : (ok && !hasOpen ps j) = true
    · rw [if_pos hc]
      have hno : hasOpen ps j = false := by
        have h2 := (Bool.and_eq_true _ _ ▸ hc).2
        revert h2; cases hh : hasOpen ps j <;> simp [hh]
      unfold openCount
      rw [List.countP_cons]
      by_cases hij : isOpenFor i (⟨j, .opened, d⟩ : Position) = true
      · have hji : j = i := by
          unfold isOpenFor at hij
          simp only [Bool.and_eq_true, beq_iff_eq] at hij
          exact hij.1
        subst hji
        have hzero : openCount ps j = 0 := openCount_eq_zero_of_hasOpen_false hno
        unfold openCount at hzero
        rw [hzero, hij]
        simp
      · rw [if_neg hij]
        have := h i
        unfold openCount at this
        simpa using this
    · rw [if_neg hc]
      exact h i
  | closePosition j =>
    refine le_trans (openCount_map_le ps _ i ?_) (h i)
    intro p hp
    by_cases hj : isOpenFor j p = true
    · rw [if_pos hj] at hp
      unfold isOpenFor at hp
      simp at hp
    · rw [if_neg hj] at hp
      exact hp
  | cooldownElapsed j =>
    refine le_trans (openCount_map_le ps _ i ?_) (h i)
    intro p hp
    by_cases hj : (p.instrument == j && p.status == PosStatus.coolingDown) = true
    · rw [if_pos hj] at hp
      unfold isOpenFor at hp
      simp at hp
    · rw [if_neg hj] at hp
      exact hp

/-- Claim C1: in every execution of the orchestrator, at most one open
position per instrument ever exists in the position log; and the
flat→open transition is taken only when the Safety Validator passed and
no position for the instrument is already open. -/
theorem C1_single_open_position :
    (∀ (evs : List OrchEvent) (i : Nat), openCount (orchRun evs) i ≤ 1) ∧
    (∀ (ps : List Position) (i : Nat) (d : Direction) (ok : Bool),
      openCount ps i < openCount (orchStep ps (.openDecision i d ok)) i →
      ok = true ∧ hasOpen ps i = false) := by
  constructor
  · intro evs
    suffices hgen : ∀ (ps : List Position), (∀ i, openCount ps i ≤ 1) →
        ∀ i, openCount (evs.foldl orchStep ps) i ≤ 1 by
      exact hgen [] (fun i => by simp [openCount])
    induction evs with
    | nil => intro ps h i; exact h i
    | cons e t ih =>
      intro ps h i
      exact ih (orchStep ps e) (orchStep_preserves_invariant ps e h) i
  · intro ps i d ok hgrow
    by_cases hc : (ok && !hasOpen ps i) = true
    · have h1 := (Bool.and_eq_true _ _ ▸ hc).1
      have h2 := (Bool.and_eq_true _ _ ▸ hc).2
      refine ⟨h1, ?_⟩
      revert h2; cases hh : hasOpen ps i <;> simp [hh]
    · exfalso
      have hstep : orchStep ps (.openDecision i d ok) = ps := by
        show (if ok && !hasOpen ps i then _ :: ps else ps) = ps
        rw [if_neg hc]
      rw [hstep] at hgrow
      exact lt_irrefl _ hgrow

/-- Claim C1 witness: opening instrument 0 on the empty log grows its
open count, and indeed the validator had passed and no open position
existed. -/
theorem C1_single_open_witness : true = true ∧ hasOpen [] 0 = false :=
  C1_single_open_position.2 [] 0 .long true (by decide)

/-- Claim C2: persisting an evaluation cycle writes exactly one record
flagged `is_final=true` — never zero, never more — and every individual
ModelOpinion of the cycle is persisted as a non-final record tagged
with the cycle. -/
theorem C2_persist_opinions_one_final (cid : Nat) (ops : List ModelOpinion)
    (final : Direction) :
    finalRecordCount (persistCycle cid ops final) = 1 ∧
    (∀ o ∈ ops, (⟨cid, o.model_name, o.direction, false⟩ : DecisionRecord) ∈
      persistCycle cid ops final) ∧
    (∀ r ∈ persistCycle cid ops final, r.cycle_id = cid) := by
  refine ⟨?_, ?_, ?_⟩
  · unfold finalRecordCount persistCycle
    rw [List.countP_append, List.countP_map]
    have hzero : List.countP ((fun r : DecisionRecord => r.is_final) ∘
        (fun o : ModelOpinion => (⟨cid, o.model_name, o.direction, false⟩ : DecisionRecord)))
        ops = 0 := by
      rw [List.countP_eq_zero]
      intro o _
      simp [Function.comp]
    rw [hzero]
    rfl
  · intro o ho
    exact List.mem_append_left _ (List.mem_map_of_mem _ ho)
  · intro r hr
    unfold persistCycle at hr
    rcases List.mem_append.mp hr with hmap | hlast
    · obtain ⟨o, _, rfl⟩ := List.mem_map.mp hmap
      rfl
    · rw [List.mem_singleton.mp hlast]

/-- Claim C2 witness: persisting a one-opinion cycle writes that
opinion's record. -/
theorem C2_persist_witness :
    (⟨7, "deepseek", .long, false⟩ : DecisionRecord) ∈
      persistCycle 7 [⟨"deepseek", .long, 1⟩] .long :=
  (C2_persist_opinions_one_final 7 [⟨"deepseek", .long, 1⟩] .long).2.1
    ⟨"deepseek", .long, 1⟩ (List.mem_singleton.mpr rfl)

/-- Claim C5: after a close of instrument `i`, direction `d`, at time
`T`, every same-direction open signal issued strictly before
`T + cooldownMinutes` is rejected and every one issued once the window
has elapsed is accepted (in particular rejected at `T+10`, accepted at
`T+31`); opens are accepted whenever all recorded windows have elapsed;
and a review signal is never suppressed, whatever the recorded
closes. -/
theorem C5_cooldown_window (T i : Nat) (d : Direction) (t : Nat)
    (closes : List CooldownEntry) :
    (t < T + cooldownMinutes →
      signalAccepted [⟨i, d, T⟩] .openSignal i d t = false) ∧
    (T + cooldownMinutes ≤ t →
      signalAccepted [⟨i, d, T⟩] .openSignal i d t = true) ∧
    ((∀ c ∈ closes, c.closedAt + cooldownMinutes ≤ t) →
      signalAccepted closes .openSignal i d t = true) ∧
    signalAccepted closes .reviewSignal i d t = true ∧
    signalAccepted [⟨i, d, T⟩] .openSignal i d (T + 10) = false ∧
    signalAccepted [⟨i, d, T⟩] .openSignal i d (T + 31) = true := by
  have hone : ∀ u : Nat, signalAccepted [⟨i, d, T⟩] .openSignal i d u =
      !(decide (u < T + cooldownMinutes)) := by
    intro u
    show (!([(⟨i, d, T⟩ : CooldownEntry)].any _)) = _
    simp [List.any_cons]
  refine ⟨?_, ?_, ?_, rfl, ?_, ?_⟩
  · intro ht
    rw [hone t, decide_eq_true ht]
    rfl
  · intro ht
    rw [hone t, decide_eq_false (not_lt.mpr ht)]
    rfl
  · intro hall
    show (!(closes.any _)) = true
    have hnone : closes.any (fun c => c.instrument == i && c.direction == d &&
        decide (t < c.closedAt + cooldownMinutes)) = false := by
      rw [List.any_eq_false]
      intro c hc
      have := hall c hc
      simp [decide_eq_false (not_lt.mpr this)]
    rw [hnone]
    rfl
  · rw [hone (T + 10), decide_eq_true (by unfold cooldownMinutes; omega)]
    rfl
  · rw [hone (T + 31), decide_eq_false (by unfold cooldownMinutes; omega)]
    rfl

/-- Claim C5 witness: with a close at time 0, an open at minute 10 is
rejected and an open at minute 31 is accepted. -/
theorem C5_cooldown_witness :
    signalAccepted [⟨0, .long, 0⟩] .openSignal 0 .long 10 = false ∧
    signalAccepted [⟨0, .long, 0⟩] .openSignal 0 .long 31 = true :=
  ⟨(C5_cooldown_window 0 0 .long 10 []).1 (by decide),
   (C5_cooldown_window 0 0 .long 31 []).2.1 (by decide)⟩

end CoinDash
